import Mathlib

/-!
Verification of the snappy tiered ZFS snapshot manager (src/snappy.py).

The Python source is shallowly embedded: each Python function is mirrored
by a Lean definition of the same name (wall-clock `now` and external
command output become explicit parameters; `set`s become insertion-ordered
duplicate-free lists, matching CPython's deterministic insertion behaviour
for the planning phase).
-/

namespace Snappy

/-- A `datetime.datetime` value at second precision (the source never uses
sub-second fields). -/
structure DateTime where
  year : Nat
  month : Nat
  day : Nat
  hour : Nat
  minute : Nat
  second : Nat
deriving DecidableEq, Repr

/-- Lexicographic step: compare one field, fall through to `k` on a tie. -/
def natCmpLe (a b : Nat) (k : Bool) : Bool :=
  if a < b then true else if b < a then false else k

/-- Python compares `datetime` values lexicographically by field. -/
def DateTime.le (a b : DateTime) : Bool :=
  natCmpLe a.year b.year (natCmpLe a.month b.month (natCmpLe a.day b.day
    (natCmpLe a.hour b.hour (natCmpLe a.minute b.minute
      (decide (a.second ≤ b.second))))))

/-- `Snapshot` dataclass of the source. `pfx` is the source's `prefix`
field, `used` the ZFS unique-bytes figure. -/
structure Snapshot where
  dataset : String
  full_name : String
  pfx : String
  timestamp : DateTime
  tier : String
  used : Nat
deriving DecidableEq, Repr

/-- `RetentionSpec` dataclass: the four per-tier counts and the name
prefix. Counts come from config values parsed with `isdigit`, hence `Nat`. -/
structure RetentionSpec where
  daily : Nat
  weekly : Nat
  monthly : Nat
  yearly : Nat
  pfx : String
deriving DecidableEq, Repr

/-! ## Python `str.replace`

`str.replace(old, new)` substitutes every non-overlapping occurrence of
`old`, scanning left to right. The source uses it to rewrite the tier
suffix of a snapshot name (`full_name.replace("_" + tier, "_" + target)`). -/

/-- Left-to-right replacement of every non-overlapping occurrence of
`old` (when `old ≠ []`) on character lists. Every step consumes at least
one character, so any `fuel ≥ s.length` computes the full replacement;
the recursion is structural on `fuel` so that it evaluates by reduction. -/
def pyReplaceAux (old new : List Char) (fuel : Nat) (s : List Char) : List Char :=
  match fuel, s with
  | 0, s => s
  | _, [] => []
  | fuel + 1, c :: rest =>
    if old.isPrefixOf (c :: rest) ∧ old ≠ [] then
      new ++ pyReplaceAux old new fuel (rest.drop (old.length - 1))
    else
      c :: pyReplaceAux old new fuel rest

/-- Python `s.replace(old, new)` for non-empty `old`. -/
def pyReplace (s old new : String) : String :=
  ⟨pyReplaceAux old.data new.data s.data.length s.data⟩

/-! ## `sorted` and `pick_best`

CPython's `sorted` is a stable sort; folding a stability-preserving
insertion over the input from the left produces the same list. -/

/-- Insert `x` into the already-sorted `l`, after every element `y`
with `le y x` — the placement a stable sort gives an element arriving
later in the input. -/
def insertStable (le : α → α → Bool) (x : α) : List α → List α
  | [] => [x]
  | y :: ys => if le y x then y :: insertStable le x ys else x :: y :: ys

/-- Stable sort by `le` (the result of CPython `sorted` with a key whose
comparison is `le`). -/
def pySorted (le : α → α → Bool) (l : List α) : List α :=
  l.foldl (fun acc x => insertStable le x acc) []

/-- The sort key of `pick_best`: the tuple `(s.used, s.timestamp)`
compared lexicographically, as Python compares key tuples. -/
def snapKeyLe (a b : Snapshot) : Bool :=
  natCmpLe a.used b.used (DateTime.le a.timestamp b.timestamp)

/-- `pick_best`: `sorted(group, key=lambda s: (s.used, s.timestamp))[-1]`.
`none` models the `IndexError` on an empty group. -/
def pick_best (group : List Snapshot) : Option Snapshot :=
  (pySorted snapKeyLe group).getLast?

/-! ## Calendar arithmetic (CPython `datetime` internals)

`age_days`, the day/ISO-week/month/year bucket keys and the daily
creator's date comparison all reduce to proleptic-Gregorian ordinal
arithmetic, mirrored here from CPython's `datetime` module. -/

/-- Gregorian leap year. -/
def isLeap (y : Nat) : Bool :=
  (y % 4 == 0 && y % 100 != 0) || y % 400 == 0

/-- Days in the months before month `m` of year `y` (m ∈ 1..12). -/
def daysBeforeMonth (y m : Nat) : Nat :=
  [0, 31, 59, 90, 120, 151, 181, 212, 243, 273, 304, 334].getD (m - 1) 0 +
    (if 2 < m ∧ isLeap y then 1 else 0)

/-- Days in month `m` of year `y` (CPython `_days_in_month`). -/
def daysInMonthCount (y m : Nat) : Nat :=
  if m = 2 then (if isLeap y then 29 else 28)
  else if m = 4 ∨ m = 6 ∨ m = 9 ∨ m = 11 then 30
  else 31

/-- Proleptic Gregorian ordinal of a date; day 1 is 0001-01-01
(CPython `_ymd2ord`). -/
def ymd2ord (y m d : Nat) : Nat :=
  (y - 1) * 365 + (y - 1) / 4 - (y - 1) / 100 + (y - 1) / 400 +
    daysBeforeMonth y m + d

/-- Seconds since the proleptic epoch; subtraction of two of these is the
`timedelta` between the datetimes, in seconds. -/
def toSeconds (dt : DateTime) : Nat :=
  ymd2ord dt.year dt.month dt.day * 86400 +
    dt.hour * 3600 + dt.minute * 60 + dt.second

/-- `age_days(ts, now) = (now - ts).days`: CPython `timedelta.days`
floors toward negative infinity, hence `Int.fdiv`. -/
def age_days (ts now : DateTime) : Int :=
  ((toSeconds now : Int) - (toSeconds ts : Int)).fdiv 86400

/-- The calendar date of a datetime — the `group_by_day` bucket key and
the daily creator's `date()` comparison. -/
def dateOf (dt : DateTime) : Nat × Nat × Nat :=
  (dt.year, dt.month, dt.day)

/-- Ordinal of the Monday starting ISO week 1 of `year`
(CPython `_isoweek1monday`). -/
def isoweek1monday (year : Nat) : Int :=
  let firstday : Int := ymd2ord year 1 1
  let firstweekday : Int := (firstday + 6) % 7
  let week1monday := firstday - firstweekday
  if 3 < firstweekday then week1monday + 7 else week1monday

/-- `(ISO year, ISO week)` of a datetime (CPython `isocalendar`, weekday
dropped) — the `group_by_week` bucket key. -/
def isocalendar (dt : DateTime) : Int × Int :=
  let today : Int := ymd2ord dt.year dt.month dt.day
  let week := (today - isoweek1monday dt.year).fdiv 7
  if week < 0 then
    ((dt.year : Int) - 1, (today - isoweek1monday (dt.year - 1)).fdiv 7 + 1)
  else if 52 ≤ week ∧ isoweek1monday (dt.year + 1) ≤ today then
    ((dt.year : Int) + 1, 1)
  else
    ((dt.year : Int), week + 1)

/-! ## Name formatting and parsing -/

/-- Zero-padded decimal rendering of width 2 (`%m`, `%d`, `%H`, `%M`, `%S`). -/
def pad2 (n : Nat) : String :=
  if n < 10 then "0" ++ toString n else toString n

/-- Zero-padded decimal rendering of width 4 (`%Y`). -/
def pad4 (n : Nat) : String :=
  if n < 10 then "000" ++ toString n
  else if n < 100 then "00" ++ toString n
  else if n < 1000 then "0" ++ toString n
  else toString n

/-- `now.strftime("%Y-%m-%d_%H:%M:%S")`. -/
def formatTimestamp (dt : DateTime) : String :=
  pad4 dt.year ++ "-" ++ pad2 dt.month ++ "-" ++ pad2 dt.day ++ "_" ++
    pad2 dt.hour ++ ":" ++ pad2 dt.minute ++ ":" ++ pad2 dt.second

/-- ASCII digit test, as the regex class `\d` matches in this source. -/
def isDigitChar (c : Char) : Bool :=
  decide ('0' ≤ c ∧ c ≤ '9')

/-- Shape test for the timestamp capture group
`\d{4}-\d{2}-\d{2}_\d{2}:\d{2}:\d{2}` (19 characters). -/
def tsShape (cs : List Char) : Bool :=
  match cs with
  | [y1, y2, y3, y4, d1, m1, m2, d2, a1, a2, u, h1, h2, c1, n1, n2, c2, s1, s2] =>
    isDigitChar y1 && isDigitChar y2 && isDigitChar y3 && isDigitChar y4 &&
    d1 == '-' && isDigitChar m1 && isDigitChar m2 &&
    d2 == '-' && isDigitChar a1 && isDigitChar a2 &&
    u == '_' && isDigitChar h1 && isDigitChar h2 &&
    c1 == ':' && isDigitChar n1 && isDigitChar n2 &&
    c2 == ':' && isDigitChar s1 && isDigitChar s2
  | _ => false

/-- The anchored naming regex
`^{prefix}-(\d{4}-\d{2}-\d{2}_\d{2}:\d{2}:\d{2})_(daily|weekly|monthly|yearly)$`:
on a match, the timestamp capture and the tier literal. -/
def parseSnapName (pfx snapname : String) : Option (String × String) :=
  if (pfx.data ++ ['-']).isPrefixOf snapname.data then
    let rest := snapname.data.drop (pfx.data.length + 1)
    let ts := rest.take 19
    let tl := rest.drop 19
    if tsShape ts &&
        (tl == "_daily".data || tl == "_weekly".data ||
         tl == "_monthly".data || tl == "_yearly".data) then
      some (⟨ts⟩, ⟨tl.drop 1⟩)
    else none
  else none

/-- Numeric value of an ASCII digit. -/
def digitVal (c : Char) : Nat := c.toNat - '0'.toNat

/-- `parse_timestamp`: `datetime.strptime(ts, "%Y-%m-%d_%H:%M:%S")`,
re-raised as `ValueError(f"Unsupported timestamp: {ts}")` on any failure.
`strptime`'s field regexes together with the `datetime` constructor
accept exactly the calendar-valid field combinations. -/
def parse_timestamp (ts : String) : Except String DateTime :=
  match ts.data with
  | [y1, y2, y3, y4, _, m1, m2, _, a1, a2, _, h1, h2, _, n1, n2, _, s1, s2] =>
    if tsShape ts.data then
      let year := 1000 * digitVal y1 + 100 * digitVal y2 + 10 * digitVal y3 + digitVal y4
      let month := 10 * digitVal m1 + digitVal m2
      let day := 10 * digitVal a1 + digitVal a2
      let hour := 10 * digitVal h1 + digitVal h2
      let minute := 10 * digitVal n1 + digitVal n2
      let second := 10 * digitVal s1 + digitVal s2
      if 1 ≤ year ∧ 1 ≤ month ∧ month ≤ 12 ∧ 1 ≤ day ∧
          day ≤ daysInMonthCount year month ∧
          hour ≤ 23 ∧ minute ≤ 59 ∧ second ≤ 59 then
        .ok ⟨year, month, day, hour, minute, second⟩
      else .error ("Unsupported timestamp: " ++ ts)
    else .error ("Unsupported timestamp: " ++ ts)
  | _ => .error ("Unsupported timestamp: " ++ ts)

/-! ## Snapshot enumeration (`list_snapshots`)

The `zfs list` call is the external collaborator; its output, already
split on the tab into `(name, used)` pairs, is the explicit input. -/

/-- The part of `full` before the first `'@'` and the part after it
(`full.split("@", 1)`). -/
def splitAtSign (full : String) : String × String :=
  let before := full.data.takeWhile (fun c => c ≠ '@')
  let after := (full.data.dropWhile (fun c => c ≠ '@')).drop 1
  (⟨before⟩, ⟨after⟩)

/-- `list_snapshots` over the listing lines: lines without `'@'` or whose
snapshot part misses the naming regex are skipped; a regex match feeds
its timestamp capture to `parse_timestamp`, whose `ValueError`
propagates (`Except.error`). -/
def list_snapshots (lines : List (String × Nat)) (pfx : String) :
    Except String (List Snapshot) :=
  match lines with
  | [] => .ok []
  | (full, used) :: rest =>
    if full.data.contains '@' then
      let ds := (splitAtSign full).1
      let snapname := (splitAtSign full).2
      match parseSnapName pfx snapname with
      | none => list_snapshots rest pfx
      | some (tsStr, tier) =>
        match parse_timestamp tsStr with
        | .error e => .error e
        | .ok ts =>
          match list_snapshots rest pfx with
          | .error e => .error e
          | .ok snaps => .ok (⟨ds, full, pfx, ts, tier, used⟩ :: snaps)
    else
      list_snapshots rest pfx

/-! ## ZFS operations and dry-run handling -/

/-- An external mutation issued to ZFS. -/
inductive Mutation where
  | rename (old new : String)
  | destroy (name : String)
deriving DecidableEq, Repr

/-- One `zfs_destroy` / `zfs_rename` / `zfs_create` call: the line it
prints and the mutation it issues (`none` in dry-run mode). -/
structure ExecStep where
  log : String
  eff : Option Mutation
deriving DecidableEq, Repr

/-- `zfs_destroy(full, dry)`. -/
def zfs_destroy (full : String) (dry : Bool) : ExecStep :=
  if dry then ⟨"[DRY] DELETE " ++ full, none⟩
  else ⟨"DELETE " ++ full, some (.destroy full)⟩

/-- `zfs_rename(old, new, dry)`. -/
def zfs_rename (old new : String) (dry : Bool) : ExecStep :=
  if dry then ⟨"[DRY] RENAME " ++ old ++ " → " ++ new, none⟩
  else ⟨"RENAME " ++ old ++ " → " ++ new, some (.rename old new)⟩

/-! ## Idempotent daily creator (`create_daily_snapshot`) -/

/-- Outcome of `create_daily_snapshot`: one of the two skip reasons, or
the name handed to `zfs_create`. -/
inductive CreateDecision where
  | skipAlreadyToday
  | skipNoChange
  | create (name : String)
deriving DecidableEq, Repr

/-- `create_daily_snapshot(dataset, prefix, snaps, dry)` with the wall
clock explicit: checks the last-listed snapshot, in source order. -/
def create_daily_snapshot (dataset pfx : String) (snaps : List Snapshot)
    (now : DateTime) : CreateDecision :=
  match snaps.getLast? with
  | some last =>
    if dateOf last.timestamp = dateOf now ∧ last.tier = "daily" then
      .skipAlreadyToday
    else if last.used = 0 then
      .skipNoChange
    else
      .create (dataset ++ "@" ++ pfx ++ "-" ++ formatTimestamp now ++ "_daily")
  | none =>
    .create (dataset ++ "@" ++ pfx ++ "-" ++ formatTimestamp now ++ "_daily")

/-! ## Retention windows and zones -/

/-- `daily_window = spec.daily`. -/
def daily_window (spec : RetentionSpec) : Nat := spec.daily

/-- `weekly_window = spec.daily + spec.weekly * 7`. -/
def weekly_window (spec : RetentionSpec) : Nat :=
  spec.daily + spec.weekly * 7

/-- `monthly_window = weekly_window + spec.monthly * 30`. -/
def monthly_window (spec : RetentionSpec) : Nat :=
  weekly_window spec + spec.monthly * 30

/-- `yearly_window = monthly_window + spec.yearly * 365` (computed by the
source but never used in a zone predicate). -/
def yearly_window (spec : RetentionSpec) : Nat :=
  monthly_window spec + spec.yearly * 365

/-- Daily-zone membership: `age_days(s.timestamp, now) <= daily_window`. -/
def inDailyZone (spec : RetentionSpec) (age : Int) : Prop :=
  age ≤ (daily_window spec : Int)

/-- Weekly-zone membership: `daily_window < age <= weekly_window`. -/
def inWeeklyZone (spec : RetentionSpec) (age : Int) : Prop :=
  (daily_window spec : Int) < age ∧ age ≤ (weekly_window spec : Int)

/-- Monthly-zone membership: `weekly_window < age <= monthly_window`. -/
def inMonthlyZone (spec : RetentionSpec) (age : Int) : Prop :=
  (weekly_window spec : Int) < age ∧ age ≤ (monthly_window spec : Int)

/-- Yearly-zone membership: `age > monthly_window`. -/
def inYearlyZone (spec : RetentionSpec) (age : Int) : Prop :=
  (monthly_window spec : Int) < age

instance (spec : RetentionSpec) (age : Int) : Decidable (inDailyZone spec age) := by
  unfold inDailyZone; infer_instance

instance (spec : RetentionSpec) (age : Int) : Decidable (inWeeklyZone spec age) := by
  unfold inWeeklyZone; infer_instance

instance (spec : RetentionSpec) (age : Int) : Decidable (inMonthlyZone spec age) := by
  unfold inMonthlyZone; infer_instance

instance (spec : RetentionSpec) (age : Int) : Decidable (inYearlyZone spec age) := by
  unfold inYearlyZone; infer_instance

/-- The members of the daily zone, in list order. -/
def daily_zone (snaps : List Snapshot) (spec : RetentionSpec) (now : DateTime) :
    List Snapshot :=
  snaps.filter fun s => decide (inDailyZone spec (age_days s.timestamp now))

/-- The members of the weekly zone, in list order. -/
def weekly_zone (snaps : List Snapshot) (spec : RetentionSpec) (now : DateTime) :
    List Snapshot :=
  snaps.filter fun s => decide (inWeeklyZone spec (age_days s.timestamp now))

/-- The members of the monthly zone, in list order. -/
def monthly_zone (snaps : List Snapshot) (spec : RetentionSpec) (now : DateTime) :
    List Snapshot :=
  snaps.filter fun s => decide (inMonthlyZone spec (age_days s.timestamp now))

/-- The members of the yearly zone, in list order. -/
def yearly_zone (snaps : List Snapshot) (spec : RetentionSpec) (now : DateTime) :
    List Snapshot :=
  snaps.filter fun s => decide (inYearlyZone spec (age_days s.timestamp now))

/-! ## Bucketing

Python builds buckets with `dict.setdefault` and iterates the dict in key
insertion order; an association list built the same way models that. -/

/-- `buckets.setdefault(key s, []).append(s)` folded over the input. -/
def groupByKey [DecidableEq κ] (key : Snapshot → κ) (snaps : List Snapshot) :
    List (κ × List Snapshot) :=
  snaps.foldl
    (fun acc s =>
      if acc.any (fun p => decide (p.1 = key s)) then
        acc.map (fun p => if p.1 = key s then (p.1, p.2 ++ [s]) else p)
      else
        acc ++ [(key s, [s])])
    []

/-- `group_by_day`. -/
def group_by_day (snaps : List Snapshot) : List ((Nat × Nat × Nat) × List Snapshot) :=
  groupByKey (fun s => dateOf s.timestamp) snaps

/-- `group_by_week` (ISO year/week key). -/
def group_by_week (snaps : List Snapshot) : List ((Int × Int) × List Snapshot) :=
  groupByKey (fun s => isocalendar s.timestamp) snaps

/-- `group_by_month`. -/
def group_by_month (snaps : List Snapshot) : List ((Nat × Nat) × List Snapshot) :=
  groupByKey (fun s => (s.timestamp.year, s.timestamp.month)) snaps

/-- The inline year bucketing of the yearly tier. -/
def group_by_year (snaps : List Snapshot) : List (Nat × List Snapshot) :=
  groupByKey (fun s => s.timestamp.year) snaps

/-! ## The plan: keep / deletes / renames -/

/-- Python `set.add` under insertion order. -/
def setAdd (l : List String) (x : String) : List String :=
  if x ∈ l then l else l ++ [x]

/-- The three collections `tiered_retention` accumulates. -/
structure Plan where
  keep : List String
  deletes : List String
  renames : List (String × String)
deriving DecidableEq, Repr

/-- The empty plan the engine starts from. -/
def Plan.init : Plan := ⟨[], [], []⟩

/-- One bucket of one zone pass: keep the best, promote it when its tier
differs from the zone's `targetTier` (the promoted name is built with
`str.replace`), mark every other member for deletion. -/
def processGroup (targetTier : String) (p : Plan) (group : List Snapshot) : Plan :=
  match pick_best group with
  | none => p
  | some best =>
    let p1 : Plan := { p with keep := setAdd p.keep best.full_name }
    let p2 : Plan :=
      if best.tier ≠ targetTier then
        { p1 with
          renames := p1.renames ++
            [(best.full_name, pyReplace best.full_name ("_" ++ best.tier) ("_" ++ targetTier))],
          keep := setAdd p1.keep
            (pyReplace best.full_name ("_" ++ best.tier) ("_" ++ targetTier)) }
      else p1
    { p2 with
      deletes := group.foldl
        (fun d s => if s.full_name ≠ best.full_name then setAdd d s.full_name else d)
        p2.deletes }

/-- One zone pass: all its buckets in insertion order. -/
def processZone (targetTier : String) (buckets : List (κ × List Snapshot))
    (p : Plan) : Plan :=
  buckets.foldl (fun q b => processGroup targetTier q b.2) p

/-- The planning phase of `tiered_retention`: sort by timestamp, process
the four zones in order, producing `keep` / `deletes` / `renames`. -/
def tiered_retention_plan (snaps0 : List Snapshot) (spec : RetentionSpec)
    (now : DateTime) : Plan :=
  let snaps := pySorted (fun a b => DateTime.le a.timestamp b.timestamp) snaps0
  let p1 := processZone "daily" (group_by_day (daily_zone snaps spec now)) Plan.init
  let p2 := processZone "weekly" (group_by_week (weekly_zone snaps spec now)) p1
  let p3 := processZone "monthly" (group_by_month (monthly_zone snaps spec now)) p2
  processZone "yearly" (group_by_year (yearly_zone snaps spec now)) p3

/-- The rename pairs the execution phase acts on:
`old != new and old not in deletes`. -/
def executedRenames (p : Plan) : List (String × String) :=
  p.renames.filter fun r => decide (r.1 ≠ r.2 ∧ r.1 ∉ p.deletes)

/-- The names the execution phase destroys: `full not in keep`. -/
def executedDeletes (p : Plan) : List String :=
  p.deletes.filter fun n => decide (n ∉ p.keep)

/-- `tiered_retention(snaps, spec, dry)` with the wall clock explicit:
the sequence of ZFS calls it issues — all surviving renames, then all
surviving deletions (empty input returns before planning). -/
def tiered_retention (snaps : List Snapshot) (spec : RetentionSpec)
    (now : DateTime) (dry : Bool) : List ExecStep :=
  if snaps.isEmpty then []
  else
    let p := tiered_retention_plan snaps spec now
    (executedRenames p).map (fun r => zfs_rename r.1 r.2 dry) ++
      (executedDeletes p).map (fun n => zfs_destroy n dry)

/-! ## Order facts about the `pick_best` sort key -/

theorem natCmpLe_trans {a b c : Nat} {k1 k2 k3 : Bool}
    (hk : k1 = true → k2 = true → k3 = true)
    (h1 : natCmpLe a b k1 = true) (h2 : natCmpLe b c k2 = true) :
    natCmpLe a c k3 = true := by
  unfold natCmpLe at h1 h2 ⊢
  split_ifs at h1 h2 ⊢ <;>
    first | rfl | exact hk h1 h2 | (exfalso; omega)

theorem natCmpLe_total {a b : Nat} {k1 k2 : Bool}
    (hk : k1 = true ∨ k2 = true) :
    natCmpLe a b k1 = true ∨ natCmpLe b a k2 = true := by
  unfold natCmpLe
  split_ifs <;>
    first | left ; rfl | right ; rfl | exact hk

theorem natCmpLe_antisymm {a b : Nat} {k1 k2 : Bool}
    (h1 : natCmpLe a b k1 = true) (h2 : natCmpLe b a k2 = true) :
    a = b ∧ k1 = true ∧ k2 = true := by
  unfold natCmpLe at h1 h2
  split_ifs at h1 h2 <;>
    first
      | exact ⟨by omega, h1, h2⟩
      | exact absurd h1 (by decide)
      | exact absurd h2 (by decide)
      | (exfalso; omega)

theorem natCmpLe_refl {a : Nat} {k : Bool} : natCmpLe a a k = k := by
  unfold natCmpLe
  split_ifs <;> first | rfl | omega

theorem DateTime.le_refl (a : DateTime) : DateTime.le a a = true := by
  unfold DateTime.le
  simp [natCmpLe_refl]

theorem DateTime.le_trans {a b c : DateTime}
    (h1 : DateTime.le a b = true) (h2 : DateTime.le b c = true) :
    DateTime.le a c = true := by
  unfold DateTime.le at h1 h2 ⊢
  refine natCmpLe_trans (fun x1 x2 => ?_) h1 h2
  refine natCmpLe_trans (fun y1 y2 => ?_) x1 x2
  refine natCmpLe_trans (fun z1 z2 => ?_) y1 y2
  refine natCmpLe_trans (fun w1 w2 => ?_) z1 z2
  refine natCmpLe_trans (fun v1 v2 => ?_) w1 w2
  simp only [decide_eq_true_eq] at v1 v2 ⊢
  omega

theorem DateTime.le_total (a b : DateTime) :
    DateTime.le a b = true ∨ DateTime.le b a = true := by
  unfold DateTime.le
  refine natCmpLe_total (natCmpLe_total (natCmpLe_total (natCmpLe_total
    (natCmpLe_total ?_))))
  rcases Nat.le_total a.second b.second with h | h
  · exact Or.inl (by simpa using h)
  · exact Or.inr (by simpa using h)

theorem DateTime.le_antisymm {a b : DateTime}
    (h1 : DateTime.le a b = true) (h2 : DateTime.le b a = true) : a = b := by
  obtain ⟨a1, a2, a3, a4, a5, a6⟩ := a
  obtain ⟨b1, b2, b3, b4, b5, b6⟩ := b
  unfold DateTime.le at h1 h2
  simp only at h1 h2
  obtain ⟨e1, h1, h2⟩ := natCmpLe_antisymm h1 h2
  obtain ⟨e2, h1, h2⟩ := natCmpLe_antisymm h1 h2
  obtain ⟨e3, h1, h2⟩ := natCmpLe_antisymm h1 h2
  obtain ⟨e4, h1, h2⟩ := natCmpLe_antisymm h1 h2
  obtain ⟨e5, h1, h2⟩ := natCmpLe_antisymm h1 h2
  simp only [decide_eq_true_eq] at h1 h2
  simp only [DateTime.mk.injEq]
  exact ⟨e1, e2, e3, e4, e5, by omega⟩

theorem snapKeyLe_refl (a : Snapshot) : snapKeyLe a a = true := by
  unfold snapKeyLe
  rw [natCmpLe_refl]
  exact DateTime.le_refl _

theorem snapKeyLe_trans {a b c : Snapshot}
    (h1 : snapKeyLe a b = true) (h2 : snapKeyLe b c = true) :
    snapKeyLe a c = true := by
  unfold snapKeyLe at h1 h2 ⊢
  exact natCmpLe_trans (fun x1 x2 => DateTime.le_trans x1 x2) h1 h2

theorem snapKeyLe_total (a b : Snapshot) :
    snapKeyLe a b = true ∨ snapKeyLe b a = true := by
  unfold snapKeyLe
  exact natCmpLe_total (DateTime.le_total _ _)

/-- Mutual `snapKeyLe` forces equal `used` and equal `timestamp`: the sort
key does not separate such snapshots. -/
theorem snapKeyLe_antisymm {a b : Snapshot}
    (h1 : snapKeyLe a b = true) (h2 : snapKeyLe b a = true) :
    a.used = b.used ∧ a.timestamp = b.timestamp := by
  unfold snapKeyLe at h1 h2
  obtain ⟨e, h1, h2⟩ := natCmpLe_antisymm h1 h2
  exact ⟨e, DateTime.le_antisymm h1 h2⟩

/-! ## Facts about the stable sort -/

theorem mem_insertStable (le : α → α → Bool) (a x : α) (l : List α) :
    x ∈ insertStable le a l ↔ x = a ∨ x ∈ l := by
  induction l with
  | nil => simp [insertStable]
  | cons y ys ih =>
    unfold insertStable
    split_ifs with h
    · simp only [List.mem_cons, ih]
      tauto
    · simp only [List.mem_cons]

theorem length_insertStable (le : α → α → Bool) (a : α) (l : List α) :
    (insertStable le a l).length = l.length + 1 := by
  induction l with
  | nil => rfl
  | cons y ys ih =>
    unfold insertStable
    split_ifs <;> simp [ih]

theorem pairwise_insertStable {le : α → α → Bool}
    (htot : ∀ x y, le x y = true ∨ le y x = true)
    (htr : ∀ {x y z}, le x y = true → le y z = true → le x z = true)
    (a : α) {l : List α} (h : l.Pairwise (fun x y => le x y = true)) :
    (insertStable le a l).Pairwise (fun x y => le x y = true) := by
  induction l with
  | nil => simp [insertStable]
  | cons y ys ih =>
    rw [List.pairwise_cons] at h
    obtain ⟨hy, hys⟩ := h
    unfold insertStable
    split_ifs with hle
    · rw [List.pairwise_cons]
      refine ⟨?_, ih hys⟩
      intro z hz
      rw [mem_insertStable] at hz
      rcases hz with rfl | hz
      · exact hle
      · exact hy z hz
    · rw [List.pairwise_cons]
      have hay : le a y = true := (htot a y).resolve_right (by simpa using hle)
      refine ⟨?_, by rw [List.pairwise_cons]; exact ⟨hy, hys⟩⟩
      intro z hz
      rcases List.mem_cons.mp hz with rfl | hz
      · exact hay
      · exact htr hay (hy z hz)

theorem mem_pySorted (le : α → α → Bool) (l : List α) (x : α) :
    x ∈ pySorted le l ↔ x ∈ l := by
  unfold pySorted
  suffices h : ∀ acc : List α, x ∈ l.foldl (fun acc y => insertStable le y acc) acc ↔
      x ∈ acc ∨ x ∈ l by
    simpa using h []
  induction l with
  | nil => simp
  | cons y ys ih =>
    intro acc
    rw [List.foldl_cons, ih, mem_insertStable]
    simp only [List.mem_cons]
    tauto

theorem pySorted_eq_nil_iff (le : α → α → Bool) (l : List α) :
    pySorted le l = [] ↔ l = [] := by
  unfold pySorted
  suffices h : ∀ acc : List α,
      (l.foldl (fun acc y => insertStable le y acc) acc).length =
        acc.length + l.length by
    constructor
    · intro he
      have := h []
      rw [he] at this
      simp at this
      exact List.length_eq_zero.mp this.symm
    · intro he
      subst he
      rfl
  induction l with
  | nil => simp
  | cons y ys ih =>
    intro acc
    rw [List.foldl_cons, ih, length_insertStable]
    simp
    omega

theorem pairwise_pySorted {le : α → α → Bool}
    (htot : ∀ x y, le x y = true ∨ le y x = true)
    (htr : ∀ {x y z}, le x y = true → le y z = true → le x z = true)
    (l : List α) :
    (pySorted le l).Pairwise (fun x y => le x y = true) := by
  unfold pySorted
  suffices h : ∀ acc : List α, acc.Pairwise (fun x y => le x y = true) →
      (l.foldl (fun acc y => insertStable le y acc) acc).Pairwise
        (fun x y => le x y = true) by
    exact h [] (by simp)
  induction l with
  | nil => simp
  | cons y ys ih =>
    intro acc hacc
    rw [List.foldl_cons]
    exact ih _ (pairwise_insertStable htot htr y hacc)

/-- A list with `getLast? = some b` splits as `l' ++ [b]`. -/
theorem getLast?_decomp {l : List α} {b : α} (h : l.getLast? = some b) :
    ∃ l', l = l' ++ [b] := by
  induction l with
  | nil => simp at h
  | cons y ys ih =>
    cases ys with
    | nil =>
      rw [List.getLast?_singleton] at h
      exact ⟨[], by simp [Option.some_inj.mp h]⟩
    | cons z zs =>
      rw [List.getLast?_cons_cons] at h
      obtain ⟨l', hl⟩ := ih h
      exact ⟨y :: l', by simp [hl]⟩

/-- In a pairwise `le`-sorted list, the last element dominates every
member. -/
theorem pairwise_getLast?_max {le : α → α → Bool}
    {l : List α} (h : l.Pairwise (fun x y => le x y = true))
    {b : α} (hb : l.getLast? = some b)
    (hrefl : ∀ x, le x x = true) :
    ∀ x ∈ l, le x b = true := by
  obtain ⟨l', rfl⟩ := getLast?_decomp hb
  rw [List.pairwise_append] at h
  intro x hx
  rcases List.mem_append.mp hx with hx | hx
  · exact h.2.2 x hx b (by simp)
  · rw [List.mem_singleton] at hx
    subst hx
    exact hrefl x

/-! ## Properties of `pick_best` -/

theorem pick_best_mem {g : List Snapshot} {b : Snapshot}
    (h : pick_best g = some b) : b ∈ g := by
  unfold pick_best at h
  obtain ⟨l', hl⟩ := getLast?_decomp h
  have : b ∈ pySorted snapKeyLe g := by
    rw [hl]
    simp
  rwa [mem_pySorted] at this

theorem pick_best_max {g : List Snapshot} {b : Snapshot}
    (h : pick_best g = some b) : ∀ s ∈ g, snapKeyLe s b = true := by
  intro s hs
  unfold pick_best at h
  have hp := pairwise_pySorted snapKeyLe_total
    (fun h1 h2 => snapKeyLe_trans h1 h2) g
  exact pairwise_getLast?_max hp h snapKeyLe_refl s
    ((mem_pySorted snapKeyLe g s).mpr hs)

theorem pick_best_eq_none_iff (g : List Snapshot) :
    pick_best g = none ↔ g = [] := by
  unfold pick_best
  rw [← pySorted_eq_nil_iff snapKeyLe g]
  cases pySorted snapKeyLe g with
  | nil => simp
  | cons y ys => simp [List.getLast?_eq_getLast]

/-! ## Concrete snapshots used as test vectors -/

/-- A daily-tagged snapshot taken 2024-05-06 07:08:09. -/
def exTie1 : Snapshot :=
  ⟨"tank", "tank@snappy-2024-05-06_07:08:09_daily", "snappy",
    ⟨2024, 5, 6, 7, 8, 9⟩, "daily", 5⟩

/-- A weekly-tagged snapshot taken the same second with the same `used`
as `exTie1`: the `pick_best` sort key does not separate the two. -/
def exTie2 : Snapshot :=
  ⟨"tank", "tank@snappy-2024-05-06_07:08:09_weekly", "snappy",
    ⟨2024, 5, 6, 7, 8, 9⟩, "weekly", 5⟩

/-- A snapshot with a strictly larger `used` than `exTie1`. -/
def exBig : Snapshot :=
  ⟨"tank", "tank@snappy-2024-05-05_01:02:03_daily", "snappy",
    ⟨2024, 5, 5, 1, 2, 3⟩, "daily", 9⟩

/-- C5 counterexample: with two snapshots sharing `(used, timestamp)`,
`pick_best` returns the snapshot listed last, so its value changes under
the transposition of the group — the claimed invariance under every
permutation fails. -/
theorem c5_counterexample :
    List.Perm [exTie1, exTie2] [exTie2, exTie1] ∧
    pick_best [exTie1, exTie2] = some exTie2 ∧
    pick_best [exTie2, exTie1] = some exTie1 ∧
    pick_best [exTie1, exTie2] ≠ pick_best [exTie2, exTie1] := by
  refine ⟨List.Perm.swap exTie2 exTie1 [], by decide, by decide, by decide⟩

/-- C5 (amended): `pick_best` always returns a member of the group that
is maximal for the lexicographic key `(usedBytes, timestamp)` — so equal
`usedBytes` ties go to a latest timestamp — and it is invariant under
permutation of the group provided no two members share both `usedBytes`
and `timestamp`. -/
theorem c5_pick_best_amended (g g' : List Snapshot) (hperm : g.Perm g')
    (hinj : ∀ s ∈ g, ∀ t ∈ g, s.used = t.used → s.timestamp = t.timestamp → s = t) :
    pick_best g = pick_best g' ∧
      ∀ b, pick_best g = some b → b ∈ g ∧ ∀ s ∈ g, snapKeyLe s b = true := by
  constructor
  · cases hg : pick_best g with
    | none =>
      have hnil : g = [] := (pick_best_eq_none_iff g).mp hg
      subst hnil
      have : g' = [] := hperm.symm.eq_nil
      subst this
      rfl
    | some b =>
      cases hg' : pick_best g' with
      | none =>
        have hnil : g' = [] := (pick_best_eq_none_iff g').mp hg'
        subst hnil
        have : g = [] := hperm.eq_nil
        subst this
        exact Option.noConfusion hg
      | some b' =>
        have hbg : b ∈ g := pick_best_mem hg
        have hb'g : b' ∈ g := hperm.mem_iff.mpr (pick_best_mem hg')
        have h1 : snapKeyLe b' b = true := pick_best_max hg b' hb'g
        have h2 : snapKeyLe b b' = true :=
          pick_best_max hg' b (hperm.mem_iff.mp hbg)
        obtain ⟨hu, ht⟩ := snapKeyLe_antisymm h2 h1
        rw [hinj b hbg b' hb'g hu ht]
  · intro b hb
    exact ⟨pick_best_mem hb, pick_best_max hb⟩

/-- Witness for `c5_pick_best_amended` on a concrete two-element group
and its transposition. -/
theorem c5_witness :
    pick_best [exTie1, exBig] = pick_best [exBig, exTie1] ∧
      ∀ b, pick_best [exTie1, exBig] = some b →
        b ∈ [exTie1, exBig] ∧ ∀ s ∈ [exTie1, exBig], snapKeyLe s b = true :=
  c5_pick_best_amended [exTie1, exBig] [exBig, exTie1]
    (List.Perm.swap exBig exTie1 []) (by decide)

/-! ## Zone partition claims -/

/-- C4: the windows are the cumulative sums the claim states, and for a
spec with (necessarily) non-negative counts and any non-negative age,
exactly one of the four zone predicates holds. -/
theorem c4_zone_partition (spec : RetentionSpec) (age : Int) (h : 0 ≤ age) :
    daily_window spec = spec.daily ∧
    weekly_window spec = daily_window spec + spec.weekly * 7 ∧
    monthly_window spec = weekly_window spec + spec.monthly * 30 ∧
    ((inDailyZone spec age ∧ ¬inWeeklyZone spec age ∧
        ¬inMonthlyZone spec age ∧ ¬inYearlyZone spec age) ∨
     (¬inDailyZone spec age ∧ inWeeklyZone spec age ∧
        ¬inMonthlyZone spec age ∧ ¬inYearlyZone spec age) ∨
     (¬inDailyZone spec age ∧ ¬inWeeklyZone spec age ∧
        inMonthlyZone spec age ∧ ¬inYearlyZone spec age) ∨
     (¬inDailyZone spec age ∧ ¬inWeeklyZone spec age ∧
        ¬inMonthlyZone spec age ∧ inYearlyZone spec age)) := by
  refine ⟨rfl, rfl, rfl, ?_⟩
  unfold inDailyZone inWeeklyZone inMonthlyZone inYearlyZone
    monthly_window weekly_window daily_window
  push_cast
  omega

/-- Witness for `c4_zone_partition` at a concrete spec and age. -/
theorem c4_witness :
    daily_window ⟨2, 1, 0, 0, "snappy"⟩ = 2 ∧
    weekly_window ⟨2, 1, 0, 0, "snappy"⟩ = daily_window ⟨2, 1, 0, 0, "snappy"⟩ + 1 * 7 ∧
    monthly_window ⟨2, 1, 0, 0, "snappy"⟩ = weekly_window ⟨2, 1, 0, 0, "snappy"⟩ + 0 * 30 ∧
    ((inDailyZone ⟨2, 1, 0, 0, "snappy"⟩ 3 ∧ ¬inWeeklyZone ⟨2, 1, 0, 0, "snappy"⟩ 3 ∧
        ¬inMonthlyZone ⟨2, 1, 0, 0, "snappy"⟩ 3 ∧ ¬inYearlyZone ⟨2, 1, 0, 0, "snappy"⟩ 3) ∨
     (¬inDailyZone ⟨2, 1, 0, 0, "snappy"⟩ 3 ∧ inWeeklyZone ⟨2, 1, 0, 0, "snappy"⟩ 3 ∧
        ¬inMonthlyZone ⟨2, 1, 0, 0, "snappy"⟩ 3 ∧ ¬inYearlyZone ⟨2, 1, 0, 0, "snappy"⟩ 3) ∨
     (¬inDailyZone ⟨2, 1, 0, 0, "snappy"⟩ 3 ∧ ¬inWeeklyZone ⟨2, 1, 0, 0, "snappy"⟩ 3 ∧
        inMonthlyZone ⟨2, 1, 0, 0, "snappy"⟩ 3 ∧ ¬inYearlyZone ⟨2, 1, 0, 0, "snappy"⟩ 3) ∨
     (¬inDailyZone ⟨2, 1, 0, 0, "snappy"⟩ 3 ∧ ¬inWeeklyZone ⟨2, 1, 0, 0, "snappy"⟩ 3 ∧
        ¬inMonthlyZone ⟨2, 1, 0, 0, "snappy"⟩ 3 ∧ inYearlyZone ⟨2, 1, 0, 0, "snappy"⟩ 3)) :=
  c4_zone_partition ⟨2, 1, 0, 0, "snappy"⟩ 3 (by decide)

/-- A daily snapshot taken 2024-05-09 12:00, one day before `exNow`. -/
def exDayOld : Snapshot :=
  ⟨"tank", "tank@snappy-2024-05-09_12:00:00_daily", "snappy",
    ⟨2024, 5, 9, 12, 0, 0⟩, "daily", 3⟩

/-- A reference wall-clock instant, 2024-05-10 18:00. -/
def exNow : DateTime := ⟨2024, 5, 10, 18, 0, 0⟩

/-- C7 counterexample: with every count 0 — in particular `yearly = 0` —
a one-day-old snapshot still lands in the yearly zone, so a count of 0
does not keep snapshots out of that tier's zone. -/
theorem c7_counterexample :
    (RetentionSpec.yearly ⟨0, 0, 0, 0, "snappy"⟩ = 0) ∧
    inYearlyZone ⟨0, 0, 0, 0, "snappy"⟩ (age_days exDayOld.timestamp exNow) ∧
    yearly_zone [exDayOld] ⟨0, 0, 0, 0, "snappy"⟩ exNow = [exDayOld] := by
  refine ⟨rfl, by decide, by decide⟩

/-- C7 (amended): `monthly = 0` makes the monthly window equal the weekly
window, empties the monthly zone and sends everything older than the
weekly window to the yearly zone; likewise `weekly = 0` empties the
weekly zone. (The daily zone keeps ages `≤ daily_window` and the yearly
zone keeps ages `> monthly_window` whatever the counts, so a zero
`daily` or `yearly` count does not empty those zones.) -/
theorem c7_zero_count_collapse (spec : RetentionSpec) :
    (spec.monthly = 0 →
      monthly_window spec = weekly_window spec ∧
      (∀ age : Int, ¬ inMonthlyZone spec age) ∧
      (∀ age : Int, (weekly_window spec : Int) < age → inYearlyZone spec age)) ∧
    (spec.weekly = 0 → ∀ age : Int, ¬ inWeeklyZone spec age) := by
  constructor
  · intro hm
    refine ⟨?_, ?_, ?_⟩
    · unfold monthly_window
      omega
    · intro age
      unfold inMonthlyZone monthly_window
      rw [hm]
      push_cast
      omega
    · intro age hage
      unfold inYearlyZone monthly_window
      rw [hm]
      push_cast
      omega
  · intro hw age
    unfold inWeeklyZone weekly_window daily_window
    rw [hw]
    push_cast
    omega

/-- Witness for `c7_zero_count_collapse` at a concrete spec. -/
theorem c7_witness :
    monthly_window ⟨2, 1, 0, 0, "snappy"⟩ = weekly_window ⟨2, 1, 0, 0, "snappy"⟩ ∧
    ¬ inMonthlyZone ⟨2, 1, 0, 0, "snappy"⟩ 12 ∧
    inYearlyZone ⟨2, 1, 0, 0, "snappy"⟩ 12 ∧
    ¬ inWeeklyZone ⟨2, 0, 3, 0, "snappy"⟩ 5 := by
  have h1 := (c7_zero_count_collapse ⟨2, 1, 0, 0, "snappy"⟩).1 rfl
  have h2 := (c7_zero_count_collapse ⟨2, 0, 3, 0, "snappy"⟩).2 rfl 5
  exact ⟨h1.1, h1.2.1 12, h1.2.2 12 (by decide), h2⟩

/-- C10: a snapshot whose timestamp is strictly in the future of `now`
has negative `age_days`, satisfies only the daily-zone predicate
(for any spec), and is carried into the daily zone list alongside the
other daily-zone members. -/
theorem c10_future_snapshot_daily (spec : RetentionSpec) (s : Snapshot)
    (now : DateTime) (h : toSeconds now < toSeconds s.timestamp) :
    age_days s.timestamp now < 0 ∧
    inDailyZone spec (age_days s.timestamp now) ∧
    ¬ inWeeklyZone spec (age_days s.timestamp now) ∧
    ¬ inMonthlyZone spec (age_days s.timestamp now) ∧
    ¬ inYearlyZone spec (age_days s.timestamp now) ∧
    ∀ snaps : List Snapshot, s ∈ snaps → s ∈ daily_zone snaps spec now := by
  have hneg : age_days s.timestamp now < 0 := by
    unfold age_days
    rw [Int.fdiv_eq_ediv _ (by norm_num)]
    omega
  refine ⟨hneg, ?_, ?_, ?_, ?_, ?_⟩
  · unfold inDailyZone daily_window
    omega
  · unfold inWeeklyZone daily_window
    omega
  · unfold inMonthlyZone monthly_window weekly_window
    push_cast
    omega
  · unfold inYearlyZone monthly_window weekly_window
    push_cast
    omega
  · intro snaps hs
    unfold daily_zone
    rw [List.mem_filter]
    refine ⟨hs, ?_⟩
    rw [decide_eq_true_eq]
    unfold inDailyZone
    omega

/-- Witness for `c10_future_snapshot_daily`: a snapshot one hour in the
future of the reference instant. -/
theorem c10_witness :
    age_days ⟨2024, 5, 10, 19, 0, 0⟩ exNow < 0 ∧
    inDailyZone ⟨0, 0, 0, 0, "snappy"⟩ (age_days ⟨2024, 5, 10, 19, 0, 0⟩ exNow) ∧
    (⟨"tank", "tank@snappy-2024-05-10_19:00:00_daily", "snappy",
        ⟨2024, 5, 10, 19, 0, 0⟩, "daily", 1⟩ : Snapshot) ∈
      daily_zone [⟨"tank", "tank@snappy-2024-05-10_19:00:00_daily", "snappy",
        ⟨2024, 5, 10, 19, 0, 0⟩, "daily", 1⟩] ⟨0, 0, 0, 0, "snappy"⟩ exNow := by
  have h := c10_future_snapshot_daily ⟨0, 0, 0, 0, "snappy"⟩
    ⟨"tank", "tank@snappy-2024-05-10_19:00:00_daily", "snappy",
      ⟨2024, 5, 10, 19, 0, 0⟩, "daily", 1⟩ exNow (by decide)
  exact ⟨h.1, h.2.1, h.2.2.2.2.2 _ (by simp)⟩

/-! ## Execution-phase claims -/

/-- C1: the executed operations are exactly the renames with
`old ≠ new` and `old ∉ deletes`, in plan order, followed by the deletes
not in `keep`; hence every rename precedes every delete, no kept name is
destroyed, and no executed rename source is scheduled for deletion. -/
theorem c1_exec_safety (snaps : List Snapshot) (spec : RetentionSpec)
    (now : DateTime) (dry : Bool) :
    tiered_retention snaps spec now dry =
      (executedRenames (tiered_retention_plan snaps spec now)).map
        (fun r => zfs_rename r.1 r.2 dry) ++
      (executedDeletes (tiered_retention_plan snaps spec now)).map
        (fun n => zfs_destroy n dry) ∧
    (∀ r ∈ executedRenames (tiered_retention_plan snaps spec now),
      r.1 ≠ r.2 ∧ r.1 ∉ (tiered_retention_plan snaps spec now).deletes) ∧
    (∀ n ∈ executedDeletes (tiered_retention_plan snaps spec now),
      n ∈ (tiered_retention_plan snaps spec now).deletes ∧
      n ∉ (tiered_retention_plan snaps spec now).keep) := by
  refine ⟨?_, ?_, ?_⟩
  · unfold tiered_retention
    cases snaps <;> rfl
  · intro r hr
    unfold executedRenames at hr
    rw [List.mem_filter, decide_eq_true_eq] at hr
    exact hr.2
  · intro n hn
    unfold executedDeletes at hn
    rw [List.mem_filter, decide_eq_true_eq] at hn
    exact hn

/-- Each real rename call and its dry-run counterpart differ only in the
`[DRY] ` log prefix and the suppressed mutation. -/
theorem zfs_rename_dry (old new : String) :
    zfs_rename old new true = ⟨"[DRY] " ++ (zfs_rename old new false).log, none⟩ := by
  have hlit : "[DRY] " ++ "RENAME " = "[DRY] RENAME " := by decide
  unfold zfs_rename
  simp only [Bool.false_eq_true, if_false, if_true, ← String.append_assoc, hlit]

/-- Each real destroy call and its dry-run counterpart differ only in the
`[DRY] ` log prefix and the suppressed mutation. -/
theorem zfs_destroy_dry (full : String) :
    zfs_destroy full true = ⟨"[DRY] " ++ (zfs_destroy full false).log, none⟩ := by
  have hlit : "[DRY] " ++ "DELETE " = "[DRY] DELETE " := by decide
  unfold zfs_destroy
  simp only [Bool.false_eq_true, if_false, if_true, ← String.append_assoc, hlit]

/-- C8: planning does not depend on the dry flag — `tiered_retention_plan`
takes no such flag — so the dry run performs exactly the real run's
steps with `[DRY] `-prefixed logs and no mutations, and the real run's
mutations are exactly the planned renames-then-deletes. -/
theorem c8_dry_run_equiv (snaps : List Snapshot) (spec : RetentionSpec)
    (now : DateTime) :
    tiered_retention snaps spec now true =
      (tiered_retention snaps spec now false).map
        (fun st => ⟨"[DRY] " ++ st.log, none⟩) ∧
    (tiered_retention snaps spec now false).map ExecStep.eff =
      (executedRenames (tiered_retention_plan snaps spec now)).map
        (fun r => some (.rename r.1 r.2)) ++
      (executedDeletes (tiered_retention_plan snaps spec now)).map
        (fun n => some (.destroy n)) := by
  have h1 := (c1_exec_safety snaps spec now true).1
  have h0 := (c1_exec_safety snaps spec now false).1
  constructor
  · rw [h1, h0]
    simp only [List.map_append, List.map_map, Function.comp]
    rw [List.map_congr_left fun r _ => zfs_rename_dry r.1 r.2,
        List.map_congr_left fun n _ => zfs_destroy_dry n]
    rfl
  · rw [h0]
    rw [List.map_append, List.map_map, List.map_map]
    rfl

/-! ## C2: the promoted name is built with `str.replace` -/

/-- A managed snapshot whose dataset name itself contains the substring
`"_weekly"`; its own tier is `weekly`. -/
def bugSnap : Snapshot :=
  ⟨"tank/vm_weekly", "tank/vm_weekly@snappy-2024-05-06_07:08:09_weekly",
    "snappy", ⟨2024, 5, 6, 7, 8, 9⟩, "weekly", 7⟩

/-- C2 fails on the code: `replace` substitutes every occurrence of
`"_" + tier`, so promoting `bugSnap` into the daily zone rewrites the
dataset portion (`tank/vm_weekly` becomes `tank/vm_daily`) along with the
tier suffix, and the planner records exactly that corrupted rename pair. -/
theorem c2_replace_corrupts_name :
    pyReplace bugSnap.full_name ("_" ++ bugSnap.tier) "_daily" =
      "tank/vm_daily@snappy-2024-05-06_07:08:09_daily" ∧
    (splitAtSign (pyReplace bugSnap.full_name ("_" ++ bugSnap.tier) "_daily")).1 ≠
      (splitAtSign bugSnap.full_name).1 ∧
    (tiered_retention_plan [bugSnap] ⟨1, 0, 0, 0, "snappy"⟩
        ⟨2024, 5, 6, 20, 0, 0⟩).renames =
      [("tank/vm_weekly@snappy-2024-05-06_07:08:09_weekly",
        "tank/vm_daily@snappy-2024-05-06_07:08:09_daily")] := by
  exact ⟨by decide, by decide, by decide⟩

/-! ## C3: foreign names are skipped; invalid calendar timestamps raise -/

/-- C3 counterexample: a listing line whose name fits the regex shape but
has month 13 makes `list_snapshots` return the `ValueError`
(`Unsupported timestamp`) instead of skipping the name. -/
theorem c3_counterexample :
    list_snapshots [("tank@snappy-2024-13-01_00:00:00_daily", 0)] "snappy" =
      .error "Unsupported timestamp: 2024-13-01_00:00:00" := by
  rfl

/-- C3 (amended): a line with no `'@'`, or whose snapshot part misses the
naming regex, is silently skipped — the listing result is that of the
remaining lines, never an error from this line. (A regex-matching name
whose digit fields form no valid calendar timestamp instead raises, per
`c3_counterexample`.) -/
theorem c3_foreign_skipped (full : String) (used : Nat)
    (rest : List (String × Nat)) (pfx : String)
    (h : full.data.contains '@' = false ∨
      parseSnapName pfx (splitAtSign full).2 = none) :
    list_snapshots ((full, used) :: rest) pfx = list_snapshots rest pfx := by
  conv_lhs => unfold list_snapshots
  rcases h with h | h
  · have h' : ¬ ('@' ∈ full.data) := by simpa using h
    simp [h']
  · by_cases hc : '@' ∈ full.data
    · simp [hc, h]
    · simp [hc]

/-- Witness for `c3_foreign_skipped`: a foreign snapshot name. -/
theorem c3_witness :
    list_snapshots [("tank@other-thing", 3)] "snappy" =
      list_snapshots [] "snappy" :=
  c3_foreign_skipped "tank@other-thing" 3 [] "snappy" (Or.inr (by decide))

/-! ## C6: the idempotent daily creator -/

/-- C6: with no prior snapshot the creator always creates; otherwise the
last-listed snapshot is consulted — first the same-calendar-date-and-
daily-tier check, then the `used == 0` check, in that order — and a
creation (when it happens) uses tier `daily` and timestamp `now`. -/
theorem c6_create_daily_decision (dataset pfx : String) (snaps : List Snapshot)
    (now : DateTime) :
    (snaps = [] →
      create_daily_snapshot dataset pfx snaps now =
        .create (dataset ++ "@" ++ pfx ++ "-" ++ formatTimestamp now ++ "_daily")) ∧
    ∀ last, snaps.getLast? = some last →
      (dateOf last.timestamp = dateOf now ∧ last.tier = "daily" →
        create_daily_snapshot dataset pfx snaps now = .skipAlreadyToday) ∧
      (¬(dateOf last.timestamp = dateOf now ∧ last.tier = "daily") →
        last.used = 0 →
        create_daily_snapshot dataset pfx snaps now = .skipNoChange) ∧
      (¬(dateOf last.timestamp = dateOf now ∧ last.tier = "daily") →
        last.used ≠ 0 →
        create_daily_snapshot dataset pfx snaps now =
          .create (dataset ++ "@" ++ pfx ++ "-" ++ formatTimestamp now ++ "_daily")) := by
  constructor
  · intro h
    subst h
    rfl
  · intro last hlast
    have hred : create_daily_snapshot dataset pfx snaps now =
        if dateOf last.timestamp = dateOf now ∧ last.tier = "daily" then
          .skipAlreadyToday
        else if last.used = 0 then
          .skipNoChange
        else
          .create (dataset ++ "@" ++ pfx ++ "-" ++ formatTimestamp now ++ "_daily") := by
      unfold create_daily_snapshot
      rw [hlast]
    refine ⟨?_, ?_, ?_⟩
    · intro hcond
      rw [hred, if_pos hcond]
    · intro hcond hz
      rw [hred, if_neg hcond, if_pos hz]
    · intro hcond hz
      rw [hred, if_neg hcond, if_neg hz]

/-- A daily snapshot taken earlier on the same calendar day as the
2024-01-02 03:04:05 reference instant. -/
def exToday : Snapshot :=
  ⟨"tank", "tank@snappy-2024-01-02_01:00:00_daily", "snappy",
    ⟨2024, 1, 2, 1, 0, 0⟩, "daily", 55⟩

/-- Witness for `c6_create_daily_decision`: empty history creates; a
daily snapshot from today skips. -/
theorem c6_witness :
    create_daily_snapshot "tank" "snappy" [] ⟨2024, 1, 2, 3, 4, 5⟩ =
      .create "tank@snappy-2024-01-02_03:04:05_daily" ∧
    create_daily_snapshot "tank" "snappy" [exToday] ⟨2024, 1, 2, 3, 4, 5⟩ =
      .skipAlreadyToday := by
  constructor
  · have h := (c6_create_daily_decision "tank" "snappy" [] ⟨2024, 1, 2, 3, 4, 5⟩).1 rfl
    rw [h]
    decide
  · exact ((c6_create_daily_decision "tank" "snappy" [exToday]
      ⟨2024, 1, 2, 3, 4, 5⟩).2 exToday (by decide)).1 (by decide)

/-! ## C9: every planned name comes from the input listing -/

theorem mem_setAdd (l : List String) (n x : String) :
    x ∈ setAdd l n ↔ x ∈ l ∨ x = n := by
  unfold setAdd
  split_ifs with h
  · constructor
    · exact Or.inl
    · rintro (hx | rfl)
      · exact hx
      · exact h
  · simp

/-- Names added by the delete-the-rest fold of a bucket come from the
starting set or the bucket members. -/
theorem deletes_fold_mem {group : List Snapshot} {d : List String}
    {best : Snapshot} {x : String}
    (hx : x ∈ group.foldl
      (fun d s => if s.full_name ≠ best.full_name then setAdd d s.full_name else d) d) :
    x ∈ d ∨ ∃ s ∈ group, s.full_name = x := by
  induction group generalizing d with
  | nil => exact Or.inl (by simpa using hx)
  | cons g gs ih =>
    rw [List.foldl_cons] at hx
    rcases ih hx with hx' | ⟨s, hs, he⟩
    · by_cases hg : g.full_name ≠ best.full_name
      · rw [if_pos hg, mem_setAdd] at hx'
        rcases hx' with hx'' | hx''
        · exact Or.inl hx''
        · exact Or.inr ⟨g, List.mem_cons_self _ _, hx''.symm⟩
      · rw [if_neg hg] at hx'
        exact Or.inl hx'
    · exact Or.inr ⟨s, List.mem_cons_of_mem _ hs, he⟩

/-- Every member of every `groupByKey` bucket is a member of the grouped
list. -/
theorem groupByKey_mem {κ : Type} [DecidableEq κ] (key : Snapshot → κ)
    (l : List Snapshot) :
    ∀ b ∈ groupByKey key l, ∀ s ∈ b.2, s ∈ l := by
  unfold groupByKey
  suffices h : ∀ (l' : List Snapshot) (acc : List (κ × List Snapshot)),
      (∀ s ∈ l', s ∈ l) → (∀ b ∈ acc, ∀ s ∈ b.2, s ∈ l) →
      ∀ b ∈ l'.foldl
        (fun acc s =>
          if acc.any (fun p => decide (p.1 = key s)) then
            acc.map (fun p => if p.1 = key s then (p.1, p.2 ++ [s]) else p)
          else
            acc ++ [(key s, [s])]) acc,
      ∀ s ∈ b.2, s ∈ l by
    exact h l [] (fun s hs => hs) (by simp)
  intro l'
  induction l' with
  | nil =>
    intro acc h1 h2 b hb
    exact h2 b (by simpa using hb)
  | cons s0 ss ih =>
    intro acc h1 h2 b hb
    rw [List.foldl_cons] at hb
    refine ih _ (fun s hs => h1 s (List.mem_cons_of_mem _ hs)) ?_ b hb
    intro b' hb' s hs
    by_cases hmem : acc.any (fun p => decide (p.1 = key s0)) = true
    · rw [if_pos hmem] at hb'
      obtain ⟨b0, hb0, rfl⟩ := List.mem_map.mp hb'
      by_cases hk : b0.1 = key s0
      · rw [if_pos hk] at hs
        rcases List.mem_append.mp hs with hs' | hs'
        · exact h2 b0 hb0 s hs'
        · rw [List.mem_singleton] at hs'
          subst hs'
          exact h1 s (List.mem_cons_self _ _)
      · rw [if_neg hk] at hs
        exact h2 b0 hb0 s hs
    · rw [if_neg hmem] at hb'
      rcases List.mem_append.mp hb' with hb'' | hb''
      · exact h2 b' hb'' s hs
      · rw [List.mem_singleton] at hb''
        subst hb''
        rw [List.mem_singleton] at hs
        subst hs
        exact h1 s (List.mem_cons_self _ _)

/-- `processGroup` only ever adds delete names and rename sources that
are full names of bucket members. -/
theorem processGroup_names {snaps : List Snapshot} {p : Plan}
    {group : List Snapshot} (tt : String)
    (hd : ∀ n ∈ p.deletes, ∃ s ∈ snaps, s.full_name = n)
    (hr : ∀ r ∈ p.renames, ∃ s ∈ snaps, s.full_name = r.1)
    (hg : ∀ s ∈ group, s ∈ snaps) :
    (∀ n ∈ (processGroup tt p group).deletes, ∃ s ∈ snaps, s.full_name = n) ∧
    (∀ r ∈ (processGroup tt p group).renames, ∃ s ∈ snaps, s.full_name = r.1) := by
  cases hpb : pick_best group with
  | none =>
    simp only [processGroup, hpb]
    exact ⟨hd, hr⟩
  | some best =>
    have hbest : best ∈ snaps := hg best (pick_best_mem hpb)
    have hd2 : (processGroup tt p group).deletes =
        group.foldl
          (fun d s => if s.full_name ≠ best.full_name then setAdd d s.full_name else d)
          p.deletes := by
      simp only [processGroup, hpb]
      split_ifs <;> rfl
    have hr2 : (processGroup tt p group).renames =
        (if best.tier ≠ tt then
          p.renames ++
            [(best.full_name, pyReplace best.full_name ("_" ++ best.tier) ("_" ++ tt))]
        else p.renames) := by
      simp only [processGroup, hpb]
      split_ifs <;> rfl
    constructor
    · intro n hn
      rw [hd2] at hn
      rcases deletes_fold_mem hn with hn' | ⟨s, hs, he⟩
      · exact hd n hn'
      · exact ⟨s, hg s hs, he⟩
    · intro r hrr
      rw [hr2] at hrr
      split_ifs at hrr with htier
      · rcases List.mem_append.mp hrr with hrr' | hrr'
        · exact hr r hrr'
        · rw [List.mem_singleton] at hrr'
          subst hrr'
          exact ⟨best, hbest, rfl⟩
      · exact hr r hrr

/-- `processZone` preserves the provenance of delete names and rename
sources across a zone's buckets. -/
theorem processZone_names {κ : Type} (tt : String)
    (buckets : List (κ × List Snapshot)) {snaps : List Snapshot} :
    ∀ p : Plan,
      (∀ n ∈ p.deletes, ∃ s ∈ snaps, s.full_name = n) →
      (∀ r ∈ p.renames, ∃ s ∈ snaps, s.full_name = r.1) →
      (∀ b ∈ buckets, ∀ s ∈ b.2, s ∈ snaps) →
      (∀ n ∈ (processZone tt buckets p).deletes, ∃ s ∈ snaps, s.full_name = n) ∧
      (∀ r ∈ (processZone tt buckets p).renames, ∃ s ∈ snaps, s.full_name = r.1) := by
  induction buckets with
  | nil =>
    intro p hd hr _
    exact ⟨hd, hr⟩
  | cons b bs ih =>
    intro p hd hr hb
    have h1 := processGroup_names tt hd hr (hb b (List.mem_cons_self _ _))
    exact ih (processGroup tt p b.2) h1.1 h1.2
      (fun b' hb' => hb b' (List.mem_cons_of_mem _ hb'))

/-- C9: every name in the plan's `deletes` (hence every name destroyed)
and the source of every plan rename (hence of every executed rename) is
the `full_name` of some snapshot of the input listing. -/
theorem c9_names_from_input (snaps : List Snapshot) (spec : RetentionSpec)
    (now : DateTime) :
    (∀ n ∈ (tiered_retention_plan snaps spec now).deletes,
      ∃ s ∈ snaps, s.full_name = n) ∧
    (∀ r ∈ (tiered_retention_plan snaps spec now).renames,
      ∃ s ∈ snaps, s.full_name = r.1) ∧
    (∀ n ∈ executedDeletes (tiered_retention_plan snaps spec now),
      ∃ s ∈ snaps, s.full_name = n) ∧
    (∀ r ∈ executedRenames (tiered_retention_plan snaps spec now),
      ∃ s ∈ snaps, s.full_name = r.1) := by
  have hsorted : ∀ s ∈ pySorted (fun a b => DateTime.le a.timestamp b.timestamp) snaps,
      s ∈ snaps :=
    fun s hs => (mem_pySorted _ _ _).mp hs
  have hzone : ∀ f : Snapshot → Bool,
      ∀ s ∈ (pySorted (fun a b => DateTime.le a.timestamp b.timestamp) snaps).filter f,
        s ∈ snaps :=
    fun f s hs => hsorted s (List.mem_filter.mp hs).1
  have h1 := processZone_names "daily"
    (group_by_day (daily_zone
      (pySorted (fun a b => DateTime.le a.timestamp b.timestamp) snaps) spec now))
    Plan.init (by intro n hn; exact absurd hn (List.not_mem_nil n))
    (by intro r hrr; exact absurd hrr (List.not_mem_nil r))
    (fun b hb s hs => hzone _ s (groupByKey_mem _ _ b hb s hs))
  have h2 := processZone_names "weekly"
    (group_by_week (weekly_zone
      (pySorted (fun a b => DateTime.le a.timestamp b.timestamp) snaps) spec now))
    _ h1.1 h1.2
    (fun b hb s hs => hzone _ s (groupByKey_mem _ _ b hb s hs))
  have h3 := processZone_names "monthly"
    (group_by_month (monthly_zone
      (pySorted (fun a b => DateTime.le a.timestamp b.timestamp) snaps) spec now))
    _ h2.1 h2.2
    (fun b hb s hs => hzone _ s (groupByKey_mem _ _ b hb s hs))
  have h4 := processZone_names "yearly"
    (group_by_year (yearly_zone
      (pySorted (fun a b => DateTime.le a.timestamp b.timestamp) snaps) spec now))
    _ h3.1 h3.2
    (fun b hb s hs => hzone _ s (groupByKey_mem _ _ b hb s hs))
  have hplan :
      (∀ n ∈ (tiered_retention_plan snaps spec now).deletes,
        ∃ s ∈ snaps, s.full_name = n) ∧
      (∀ r ∈ (tiered_retention_plan snaps spec now).renames,
        ∃ s ∈ snaps, s.full_name = r.1) :=
    h4
  refine ⟨hplan.1, hplan.2, ?_, ?_⟩
  · intro n hn
    exact hplan.1 n (List.mem_filter.mp hn).1
  · intro r hrr
    exact hplan.2 r (List.mem_filter.mp hrr).1

end Snappy
